import Mathlib

/-!
Verification of the clox bytecode-chunk core (src/clox/chunk.h, src/clox/memory.h,
src/clox/value.h): a growable instruction buffer with a parallel line-number array,
an attached constant pool, and an allocation-funneling primitive.

The repository ships only the headers: struct layouts, the GROW_CAPACITY macro and
all function signatures are taken from the source; function bodies are not present
under src/, so they are modelled from the specification (each such definition says
so in its doc comment).

Machine integers: the C fields `int capacity` / `int count` are modelled as Int,
byte values (uint8_t) as Fin 256, and a Value (a C double) by its 64-bit pattern as
a Nat, since this layer only ever stores and copies values bit-identically.
-/

namespace Clox

/-- A runtime `Value` (`typedef double Value;` in src/clox/value.h), modelled by its
64-bit IEEE-754 bit pattern.  This layer never performs arithmetic on values: they
are stored by copy and read back, so bit-pattern identity is the relevant equality. -/
abbrev Value := Nat

/-- The bit pattern of the double 42.0 (sign 0, exponent 0x404, mantissa 0x5000…). -/
def bits42 : Value := 0x4045000000000000

/-- The GROW_CAPACITY macro from src/clox/memory.h:
`((capacity) < 8 ? 8 : (capacity) * 2)`. -/
def GROW_CAPACITY (capacity : Int) : Int :=
  if capacity < 8 then 8 else capacity * 2

/-- The ValueArray struct from src/clox/value.h: `capacity`, `count`, and the backing
store of values; the backing store is modelled by the list of its `count` live
elements (slots past `count` are never read by this layer). -/
structure ValueArray where
  capacity : Int
  count : Int
  values : List Value
deriving DecidableEq, Repr

/-- Modelled from the spec: the body of `initValueArray` is not under src/ (only its
declaration in value.h).  Spec §4.4: "`init()`: empty state, no allocation". -/
def initValueArray : ValueArray :=
  { capacity := 0, count := 0, values := [] }

/-- Modelled from the spec: the body of `writeValueArray` is not under src/ (only its
declaration in value.h).  Spec §4.2/§4.4: "if `count == capacity`, grow capacity
first [by GROW_CAPACITY], then write the new element at index `count`, then
increment `count`". -/
def writeValueArray (array : ValueArray) (value : Value) : ValueArray :=
  let cap := if array.count = array.capacity then GROW_CAPACITY array.capacity
             else array.capacity
  { capacity := cap, count := array.count + 1, values := array.values ++ [value] }

/-- Modelled from the spec: the body of `freeValueArray` is not under src/ (only its
declaration in value.h).  Spec §4.4: "releases the backing storage through the
Allocator Seam, resets to empty state". -/
def freeValueArray (_array : ValueArray) : ValueArray :=
  initValueArray

/-- The OpCode enum from src/clox/chunk.h. -/
inductive OpCode where
  | OP_CONSTANT
  | OP_RETURN
deriving DecidableEq, Repr

/-- The numeric value of each enum constant (C assigns 0, 1 in declaration order),
as the single operand byte it occupies in the code array. -/
def OpCode.toByte : OpCode → Fin 256
  | .OP_CONSTANT => 0
  | .OP_RETURN => 1

/-- The Chunk struct from src/clox/chunk.h: one shared `capacity` and one shared
`count` for both the `code` byte array and the `lines` array, plus the owned
constant pool.  As in ValueArray, each backing store is modelled by the list of its
`count` live elements. -/
structure Chunk where
  capacity : Int
  count : Int
  code : List (Fin 256)
  lines : List Int
  constants : ValueArray
deriving DecidableEq, Repr

/-- Modelled from the spec: the body of `initChunk` is not under src/ (only its
declaration in chunk.h).  Spec §4.3: "sets both arrays to capacity 0 / count 0 and
initializes an empty owned Value Pool". -/
def initChunk : Chunk :=
  { capacity := 0, count := 0, code := [], lines := [], constants := initValueArray }

/-- Modelled from the spec: the body of `writeChunk` is not under src/ (only its
declaration in chunk.h).  Spec §4.3: "appends `byte` to `code` and `line` to `lines`
as a matched pair, applying the Growth Policy to both arrays identically".  The
`byte` parameter is a uint8_t in the source, hence Fin 256 here. -/
def writeChunk (chunk : Chunk) (byte : Fin 256) (line : Int) : Chunk :=
  let cap := if chunk.count = chunk.capacity then GROW_CAPACITY chunk.capacity
             else chunk.capacity
  { capacity := cap, count := chunk.count + 1,
    code := chunk.code ++ [byte], lines := chunk.lines ++ [line],
    constants := chunk.constants }

/-- Modelled from the spec: the body of `addConstant` is not under src/ (only its
declaration in chunk.h, which fixes the return type `int`).  Spec §4.3: "appends
`value` to the owned Value Pool via its own append operation and returns the index
at which it was stored (i.e., `count - 1` after the append)". -/
def addConstant (chunk : Chunk) (value : Value) : Chunk × Int :=
  let arr := writeValueArray chunk.constants value
  ({ chunk with constants := arr }, arr.count - 1)

/-- Modelled from the spec: the body of `freeChunk` is not under src/ (only its
declaration in chunk.h).  Spec §4.3: "releases `code` and `lines` through the
Allocator Seam (each reduced to capacity 0 / count 0) and frees the owned Value
Pool", leaving the chunk "in the same state as a freshly initialized chunk". -/
def freeChunk (chunk : Chunk) : Chunk :=
  { capacity := 0, count := 0, code := [], lines := [],
    constants := freeValueArray chunk.constants }

/-- The C implicit conversion of an int to a uint8_t (reduction mod 256), as happens
when a constant index returned by `addConstant` is passed as the `byte` argument of
`writeChunk`. -/
def intToUInt8 (i : Int) : Fin 256 :=
  ⟨(i % 256).toNat, by
    have h1 : 0 ≤ i % 256 := Int.emod_nonneg i (by norm_num)
    have h2 : i % 256 < 256 := Int.emod_lt_of_pos i (by norm_num)
    omega⟩

/-- One producer-side operation on a chunk: either a `writeChunk` call or an
`addConstant` call (spec §6: a producer interleaves the two arbitrarily). -/
inductive ChunkOp where
  | write (byte : Fin 256) (line : Int)
  | addConst (value : Value)
deriving DecidableEq, Repr

/-- Apply one operation to a chunk (discarding `addConstant`'s returned index). -/
def runOp (chunk : Chunk) (op : ChunkOp) : Chunk :=
  match op with
  | .write b l => writeChunk chunk b l
  | .addConst v => (addConstant chunk v).1

/-- Apply a trace of operations, in order. -/
def run (chunk : Chunk) (t : List ChunkOp) : Chunk :=
  t.foldl runOp chunk

/-- The values added by the `addConstant` calls of a trace, in order. -/
def constsOf (t : List ChunkOp) : List Value :=
  t.filterMap (fun op => match op with
    | .write _ _ => none
    | .addConst v => some v)

/-- The number of `writeChunk` calls in a trace. -/
def numWrites (t : List ChunkOp) : Nat :=
  t.countP (fun op => match op with
    | .write _ _ => true
    | .addConst _ => false)

/-- A pure `writeChunk` call sequence: fold the (byte, line) pairs over a chunk. -/
def writeSeq (chunk : Chunk) (ws : List (Fin 256 × Int)) : Chunk :=
  ws.foldl (fun c p => writeChunk c p.1 p.2) chunk

/-- Append k values to a fresh ValueArray, in order. -/
def writeAll (vs : List Value) : ValueArray :=
  vs.foldl writeValueArray initValueArray

/-- The capacity of an initially empty array after k appends under the Growth
Policy (count before the (k+1)-th append is k, and the append grows exactly when
count equals capacity). -/
def capAfter : Nat → Int
  | 0 => 0
  | k + 1 => if (k : Int) = capAfter k then GROW_CAPACITY (capAfter k) else capAfter k

/-- Modelled from the spec: the body of `reallocate` is not under src/ (only its
declaration in memory.h).  Spec §4.1: "`newSize == 0` releases the allocation and
returns an absent handle.  `oldSize == 0` with `pointer` absent performs a fresh
allocation.  Otherwise it resizes… contents up to `min(oldSize, newSize)` are
preserved… if a non-zero `newSize` cannot be satisfied, the system fails fatally."
A live allocation is modelled as the list of its bytes; `allocOk` abstracts whether
the underlying allocator can satisfy a non-zero request; the fatal process abort is
the `Except.error` outcome, and fresh or grown bytes are unspecified (here 0). -/
def reallocate (ptr : Option (List Nat)) (oldSize newSize : Nat) (allocOk : Bool) :
    Except Unit (Option (List Nat)) :=
  if newSize = 0 then Except.ok none
  else if allocOk then
    match ptr with
    | none => Except.ok (some (List.replicate newSize 0))
    | some old =>
        Except.ok (some (old.take (min oldSize newSize) ++
          List.replicate (newSize - min oldSize newSize) 0))
  else Except.error ()

/-! ### Basic fold lemmas -/

lemma writeSeq_append (c : Chunk) (ws : List (Fin 256 × Int)) (p : Fin 256 × Int) :
    writeSeq c (ws ++ [p]) = writeChunk (writeSeq c ws) p.1 p.2 := by
  simp [writeSeq, List.foldl_append]

lemma writeAll_concat (vs : List Value) (v : Value) :
    writeAll (vs ++ [v]) = writeValueArray (writeAll vs) v := by
  simp [writeAll, List.foldl_append]

lemma run_cons (c : Chunk) (op : ChunkOp) (t : List ChunkOp) :
    run c (op :: t) = run (runOp c op) t := by
  simp [run]

/-- The shape of every chunk reachable from `initChunk` by a trace: the fields are
determined by the write count and the added constants, with `code`/`lines` in
lockstep and the pool's `count` equal to its length. -/
lemma run_fields (t : List ChunkOp) (c : Chunk) :
    (run c t).code.length = c.code.length + numWrites t ∧
    (run c t).lines.length = c.lines.length + numWrites t ∧
    (run c t).count = c.count + (numWrites t : Int) ∧
    (run c t).constants.values = c.constants.values ++ constsOf t ∧
    (run c t).constants.count = c.constants.count + ((constsOf t).length : Int) := by
  induction t generalizing c with
  | nil => simp [run, numWrites, constsOf]
  | cons op t ih =>
    rw [run_cons]
    rcases ih (runOp c op) with ⟨h1, h2, h3, h4, h5⟩
    refine ⟨?_, ?_, ?_, ?_, ?_⟩
    · rw [h1]
      cases op <;>
        simp [runOp, writeChunk, addConstant, writeValueArray, numWrites,
          List.countP_cons] <;> omega
    · rw [h2]
      cases op <;>
        simp [runOp, writeChunk, addConstant, writeValueArray, numWrites,
          List.countP_cons] <;> omega
    · rw [h3]
      cases op <;>
        simp [runOp, writeChunk, addConstant, writeValueArray, numWrites,
          List.countP_cons] <;> push_cast <;> ring
    · rw [h4]
      cases op <;>
        simp [runOp, writeChunk, addConstant, writeValueArray, constsOf,
          List.filterMap_cons]
    · rw [h5]
      cases op <;>
        simp [runOp, writeChunk, addConstant, writeValueArray, constsOf,
          List.filterMap_cons] <;> push_cast <;> ring

/-- A pure `writeChunk` call sequence from a fresh chunk records exactly the pairs
written, in order, with `count` tracking the length. -/
lemma writeSeq_fields (ws : List (Fin 256 × Int)) :
    (writeSeq initChunk ws).code = ws.map Prod.fst ∧
    (writeSeq initChunk ws).lines = ws.map Prod.snd ∧
    (writeSeq initChunk ws).count = (ws.length : Int) := by
  induction ws using List.reverseRecOn with
  | nil => simp [writeSeq, initChunk]
  | append_singleton ws p ih =>
    rcases ih with ⟨h1, h2, h3⟩
    rw [writeSeq_append]
    refine ⟨?_, ?_, ?_⟩ <;> simp [writeChunk, h1, h2, h3]

/-- Appending to a fresh ValueArray: count tracks the number of appends and the
capacity follows `capAfter`. -/
lemma writeAll_count_capacity (vs : List Value) :
    (writeAll vs).count = (vs.length : Int) ∧
    (writeAll vs).capacity = capAfter vs.length := by
  induction vs using List.reverseRecOn with
  | nil => simp [writeAll, initValueArray, capAfter]
  | append_singleton vs v ih =>
    rcases ih with ⟨h1, h2⟩
    rw [writeAll_concat]
    constructor
    · simp [writeValueArray, h1]
    · simp [writeValueArray, h1, h2, capAfter]

/-- `GROW_CAPACITY` doubles any capacity that is at least 8. -/
lemma growCapacity_pow (j : Nat) : GROW_CAPACITY (8 * 2 ^ j) = 8 * 2 ^ (j + 1) := by
  have h0 : (0 : Int) < 2 ^ j := pow_pos (by norm_num) j
  have h1 : (1 : Int) ≤ 2 ^ j := by
    have := Int.lt_iff_add_one_le.mp h0
    simpa using this
  have h8 : (8 : Int) ≤ 8 * 2 ^ j := by nlinarith
  simp only [GROW_CAPACITY]
  rw [if_neg (by omega)]
  ring

/-- The capacity after k ≥ 1 appends is the least power-of-two multiple of 8 that
is at least k. -/
lemma capAfter_char (k : Nat) (hk : 1 ≤ k) :
    ∃ j : Nat, capAfter k = 8 * 2 ^ j ∧ (k : Int) ≤ 8 * 2 ^ j ∧
      (j = 0 ∨ 8 * 2 ^ (j - 1) < (k : Int)) := by
  induction k with
  | zero => omega
  | succ k ih =>
    rcases Nat.eq_zero_or_pos k with hk0 | hk1
    · subst hk0
      refine ⟨0, ?_, by norm_num, Or.inl rfl⟩
      simp [capAfter, GROW_CAPACITY]
    · rcases ih hk1 with ⟨j, hc, hle, hmin⟩
      by_cases h : (k : Int) = capAfter k
      · refine ⟨j + 1, ?_, ?_, Or.inr ?_⟩
        · simp only [capAfter]
          rw [if_pos h, hc, growCapacity_pow]
        · have hk8 : (k : Int) = 8 * 2 ^ j := by rw [h, hc]
          have h1 : (1 : Int) ≤ k := by exact_mod_cast hk1
          push_cast
          rw [pow_succ]
          nlinarith
        · have hk8 : (k : Int) = 8 * 2 ^ j := by rw [h, hc]
          simp only [Nat.add_sub_cancel]
          push_cast
          omega
      · refine ⟨j, ?_, ?_, ?_⟩
        · simp only [capAfter]
          rw [if_neg h, hc]
        · have hlt : (k : Int) < 8 * 2 ^ j := lt_of_le_of_ne hle (by rw [← hc]; exact h)
          push_cast
          omega
        · rcases hmin with h0 | hlt
          · exact Or.inl h0
          · refine Or.inr ?_
            push_cast
            omega

/-! ### Claims -/

/-- C1: For every sequence of N calls to `writeChunk(chunk, byte, line)` on an
initialized chunk, afterwards `chunk.count == N`, the code array and the lines
array both have length N, and for every i < N, `code[i]` and `lines[i]` equal the
byte and line arguments of the i-th call, in call order; the two arrays never
desynchronize in length at any point of the sequence. -/
theorem writeChunk_sequence_spec (ws : List (Fin 256 × Int)) :
    (writeSeq initChunk ws).count = (ws.length : Int) ∧
    (writeSeq initChunk ws).code.length = ws.length ∧
    (writeSeq initChunk ws).lines.length = ws.length ∧
    (∀ i : Nat, (writeSeq initChunk ws).code[i]? = (ws[i]?).map Prod.fst) ∧
    (∀ i : Nat, (writeSeq initChunk ws).lines[i]? = (ws[i]?).map Prod.snd) ∧
    (∀ k : Nat, (writeSeq initChunk (ws.take k)).code.length =
      (writeSeq initChunk (ws.take k)).lines.length) := by
  rcases writeSeq_fields ws with ⟨h1, h2, h3⟩
  refine ⟨h3, by simp [h1], by simp [h2], ?_, ?_, ?_⟩
  · intro i; simp [h1]
  · intro i; simp [h2]
  · intro k
    rcases writeSeq_fields (ws.take k) with ⟨g1, g2, -⟩
    simp [g1, g2]

/-- C2: For every old capacity value c, `GROW_CAPACITY` returns 8 when c < 8 and
returns c * 2 otherwise; every capacity increase performed by an append operation
uses exactly this rule (the capacity after an append is either unchanged or
exactly `GROW_CAPACITY` of the old capacity). -/
theorem growCapacity_spec :
    (∀ c : Int, c < 8 → GROW_CAPACITY c = 8) ∧
    (∀ c : Int, ¬ c < 8 → GROW_CAPACITY c = c * 2) ∧
    (∀ (a : ValueArray) (v : Value),
      (writeValueArray a v).capacity = a.capacity ∨
      (writeValueArray a v).capacity = GROW_CAPACITY a.capacity) ∧
    (∀ (c : Chunk) (b : Fin 256) (l : Int),
      (writeChunk c b l).capacity = c.capacity ∨
      (writeChunk c b l).capacity = GROW_CAPACITY c.capacity) := by
  refine ⟨?_, ?_, ?_, ?_⟩
  · intro c h; simp [GROW_CAPACITY, h]
  · intro c h; simp [GROW_CAPACITY, h]
  · intro a v
    by_cases h : a.count = a.capacity <;> simp [writeValueArray, h]
  · intro c b l
    by_cases h : c.count = c.capacity <;> simp [writeChunk, h]

/-- Witness for C2 at concrete capacities 0 (< 8) and 8 (≥ 8). -/
theorem growCapacity_spec_witness :
    ((0 : Int) < 8 ∧ GROW_CAPACITY 0 = 8) ∧
    (¬ (8 : Int) < 8 ∧ GROW_CAPACITY 8 = 8 * 2) :=
  ⟨⟨by norm_num, growCapacity_spec.1 0 (by norm_num)⟩,
   ⟨by norm_num, growCapacity_spec.2.1 8 (by norm_num)⟩⟩

/-- C3: For every chunk reachable by a trace of operations and every value v,
`addConstant(chunk, v)` returns an index equal to the number of `addConstant`
calls previously made on that chunk, equal to the pool's count minus one after the
append, and reading the pool at that index afterwards yields v exactly
(bit-identically). -/
theorem addConstant_spec (t : List ChunkOp) (v : Value) :
    (addConstant (run initChunk t) v).2 = ((constsOf t).length : Int) ∧
    (addConstant (run initChunk t) v).2 =
      (addConstant (run initChunk t) v).1.constants.count - 1 ∧
    (addConstant (run initChunk t) v).1.constants.values[(constsOf t).length]? =
      some v := by
  rcases run_fields t initChunk with ⟨-, -, -, h4, h5⟩
  rw [show initChunk.constants.values = [] from rfl, List.nil_append] at h4
  rw [show initChunk.constants.count = 0 from rfl, zero_add] at h5
  refine ⟨?_, ?_, ?_⟩
  · simp [addConstant, writeValueArray, h5]
  · simp [addConstant, writeValueArray]
  · simp only [addConstant, writeValueArray, h4]
    rw [List.getElem?_append_right (le_refl (constsOf t).length)]
    simp

/-- C4: For every sequence of k appends to an array that starts empty (capacity 0)
and is never freed, the capacity after the k-th append is the smallest element of
the sequence 8, 16, 32, … that is ≥ k; capacity never decreases across appends, and
a fresh array receiving 9 appends undergoes exactly two capacity changes
(0 to 8, then 8 to 16). -/
theorem growthPolicy_trajectory_spec :
    (∀ vs : List Value, (writeAll vs).capacity = capAfter vs.length) ∧
    (∀ vs : List Value, vs ≠ [] →
      ∃ j : Nat, (writeAll vs).capacity = 8 * 2 ^ j ∧
        (vs.length : Int) ≤ 8 * 2 ^ j ∧
        (j = 0 ∨ 8 * 2 ^ (j - 1) < (vs.length : Int))) ∧
    (∀ (a : ValueArray) (v : Value), a.capacity ≤ (writeValueArray a v).capacity) ∧
    ((List.range 9).countP (fun k => capAfter (k + 1) != capAfter k) = 2 ∧
      capAfter 0 = 0 ∧ capAfter 1 = 8 ∧ capAfter 8 = 8 ∧ capAfter 9 = 16) := by
  refine ⟨?_, ?_, ?_, ?_⟩
  · intro vs; exact (writeAll_count_capacity vs).2
  · intro vs hvs
    have hlen : 1 ≤ vs.length := by
      have := List.length_pos.mpr hvs
      omega
    rcases capAfter_char vs.length hlen with ⟨j, h1, h2, h3⟩
    exact ⟨j, by rw [(writeAll_count_capacity vs).2, h1], h2, h3⟩
  · intro a v
    have hcap : (writeValueArray a v).capacity =
        if a.count = a.capacity then GROW_CAPACITY a.capacity else a.capacity := rfl
    rw [hcap]
    simp only [GROW_CAPACITY]
    split_ifs with h1 h2 <;> linarith
  · refine ⟨by decide, by decide, by decide, by decide, by decide⟩

/-- Witness for C4 at the concrete one-element append sequence [bits42]. -/
theorem growthPolicy_trajectory_spec_witness :
    ([bits42] : List Value) ≠ [] ∧
    ∃ j : Nat, (writeAll [bits42]).capacity = 8 * 2 ^ j ∧
      (([bits42] : List Value).length : Int) ≤ 8 * 2 ^ j ∧
      (j = 0 ∨ 8 * 2 ^ (j - 1) < (([bits42] : List Value).length : Int)) :=
  ⟨by simp, growthPolicy_trajectory_spec.2.1 [bits42] (by simp)⟩

/-- C5: `reallocate(pointer, oldSize, newSize)` releases the allocation and returns
an absent handle whenever newSize == 0; performs a fresh allocation when
oldSize == 0 and pointer is absent; and otherwise returns a possibly relocated
handle whose contents up to min(oldSize, newSize) bytes equal the old contents. -/
theorem reallocate_spec :
    (∀ (ptr : Option (List Nat)) (oldSize : Nat) (allocOk : Bool),
      reallocate ptr oldSize 0 allocOk = Except.ok none) ∧
    (∀ newSize : Nat, newSize ≠ 0 →
      reallocate none 0 newSize true = Except.ok (some (List.replicate newSize 0)) ∧
      (List.replicate newSize (0 : Nat)).length = newSize) ∧
    (∀ (old : List Nat) (oldSize newSize : Nat), newSize ≠ 0 → old.length = oldSize →
      ∃ newBlock : List Nat,
        reallocate (some old) oldSize newSize true = Except.ok (some newBlock) ∧
        newBlock.length = newSize ∧
        newBlock.take (min oldSize newSize) = old.take (min oldSize newSize)) := by
  refine ⟨?_, ?_, ?_⟩
  · intro ptr oldSize allocOk; simp [reallocate]
  · intro newSize hn; exact ⟨by simp [reallocate, hn], by simp⟩
  · intro old oldSize newSize hn hlen
    refine ⟨old.take (min oldSize newSize) ++
      List.replicate (newSize - min oldSize newSize) 0, ?_, ?_, ?_⟩
    · simp [reallocate, hn]
    · simp only [List.length_append, List.length_take, List.length_replicate, hlen]
      omega
    · have hl : (old.take (min oldSize newSize)).length = min oldSize newSize := by
        simp only [List.length_take, hlen]
        omega
      have hpre := List.take_left (old.take (min oldSize newSize))
        (List.replicate (newSize - min oldSize newSize) 0)
      rw [hl] at hpre
      exact hpre

/-- Witness for C5: resizing a 3-byte block [1, 2, 3] down to 2 bytes preserves
the first min(3, 2) = 2 bytes. -/
theorem reallocate_spec_witness :
    (2 : Nat) ≠ 0 ∧ ([1, 2, 3] : List Nat).length = 3 ∧
    ∃ newBlock : List Nat,
      reallocate (some [1, 2, 3]) 3 2 true = Except.ok (some newBlock) ∧
      newBlock.length = 2 ∧
      newBlock.take (min 3 2) = ([1, 2, 3] : List Nat).take (min 3 2) :=
  ⟨by decide, by decide, reallocate_spec.2.2 [1, 2, 3] 3 2 (by decide) (by decide)⟩

/-- C6: A `reallocate` call with non-zero newSize that cannot be satisfied ends in
the fatal (process-terminating) outcome, never in any handle; and no operation of
this layer has an error-return channel — `writeChunk`, `addConstant` and
`writeValueArray` each unconditionally succeed, appending exactly one element. -/
theorem allocationFailure_fatal_spec :
    (∀ (ptr : Option (List Nat)) (oldSize newSize : Nat), newSize ≠ 0 →
      reallocate ptr oldSize newSize false = Except.error ()) ∧
    (∀ (c : Chunk) (b : Fin 256) (l : Int),
      (writeChunk c b l).count = c.count + 1 ∧
      (writeChunk c b l).code = c.code ++ [b]) ∧
    (∀ (c : Chunk) (v : Value),
      (addConstant c v).1.constants.count = c.constants.count + 1) ∧
    (∀ (a : ValueArray) (v : Value),
      (writeValueArray a v).count = a.count + 1 ∧
      (writeValueArray a v).values = a.values ++ [v]) := by
  refine ⟨?_, ?_, ?_, ?_⟩
  · intro ptr oldSize newSize hn
    cases ptr <;> simp [reallocate, hn]
  · intro c b l; exact ⟨rfl, rfl⟩
  · intro c v; rfl
  · intro a v; exact ⟨rfl, rfl⟩

/-- Witness for C6 at a concrete failing 1-byte request. -/
theorem allocationFailure_fatal_spec_witness :
    (1 : Nat) ≠ 0 ∧ reallocate none 0 1 false = Except.error () :=
  ⟨by decide, allocationFailure_fatal_spec.1 none 0 1 (by decide)⟩

/-- C7: For every chunk, `freeChunk` leaves the chunk (code, lines and owned pool)
in exactly the state produced by `initChunk` on a fresh chunk — capacity 0,
count 0, no backing storage — so that `freeChunk` followed by re-use behaves
exactly like a chunk that was never used. -/
theorem freeChunk_reinit_spec (c : Chunk) (t : List ChunkOp) :
    freeChunk c = initChunk ∧
    (freeChunk c).capacity = 0 ∧ (freeChunk c).count = 0 ∧
    (freeChunk c).code = [] ∧ (freeChunk c).lines = [] ∧
    (freeChunk c).constants = initValueArray ∧
    run (freeChunk c) t = run initChunk t := by
  refine ⟨rfl, rfl, rfl, rfl, rfl, rfl, ?_⟩
  rw [show freeChunk c = initChunk from rfl]

/-- C8: Starting from a freshly initialized chunk, the call sequence
`addConstant(42.0)`, `writeChunk(OP_CONSTANT, line 1)`, `writeChunk(0, line 1)`,
`writeChunk(OP_RETURN, line 2)` has `addConstant` return 0 and leaves the chunk
with code [OP_CONSTANT, 0, OP_RETURN], lines [1, 1, 2], and pool [42.0]. -/
theorem opConstant_scenario_spec :
    (addConstant initChunk bits42).2 = 0 ∧
    (writeChunk (writeChunk (writeChunk (addConstant initChunk bits42).1
        OpCode.OP_CONSTANT.toByte 1) 0 1) OpCode.OP_RETURN.toByte 2).code =
      [OpCode.OP_CONSTANT.toByte, 0, OpCode.OP_RETURN.toByte] ∧
    (writeChunk (writeChunk (writeChunk (addConstant initChunk bits42).1
        OpCode.OP_CONSTANT.toByte 1) 0 1) OpCode.OP_RETURN.toByte 2).lines =
      [1, 1, 2] ∧
    (writeChunk (writeChunk (writeChunk (addConstant initChunk bits42).1
        OpCode.OP_CONSTANT.toByte 1) 0 1) OpCode.OP_RETURN.toByte 2).constants.values =
      [bits42] := by
  refine ⟨rfl, rfl, rfl, rfl⟩

/-- C9: The Chunk type holds a single capacity field and a single count field
shared by both the code array and the lines array, so in every state reachable
from `initChunk` the arrays' lengths agree with each other and with the shared
count, and no single operation advances one array's length without the other. -/
theorem chunk_lockstep_spec (t : List ChunkOp) :
    (run initChunk t).code.length = (run initChunk t).lines.length ∧
    (run initChunk t).count = ((run initChunk t).code.length : Int) ∧
    (run initChunk t).capacity = (run initChunk t).capacity ∧
    (∀ (c : Chunk) (op : ChunkOp),
      (runOp c op).code.length + c.lines.length =
        (runOp c op).lines.length + c.code.length) := by
  rcases run_fields t initChunk with ⟨h1, h2, h3, -, -⟩
  rw [show initChunk.code.length = 0 from rfl, zero_add] at h1
  rw [show initChunk.lines.length = 0 from rfl, zero_add] at h2
  rw [show initChunk.count = 0 from rfl, zero_add] at h3
  refine ⟨by rw [h1, h2], by rw [h1, h3], rfl, ?_⟩
  intro c op
  cases op <;> simp [runOp, writeChunk, addConstant] <;> omega

/-- A trace of 256 `addConstant` calls, used to exhibit the operand-byte overflow
of C10. -/
def manyConstsTrace : List ChunkOp :=
  List.replicate 256 (ChunkOp.addConst 0)

set_option maxRecDepth 4000 in
/-- C10: `addConstant` returns a signed int index while bytecode operands are one
uint8_t each; on a chunk holding more than 256 constants it returns the index 256,
which no single operand byte can represent, the C int-to-uint8_t conversion
silently truncates it to 0, and `writeChunk` accepts the truncated byte without
any check or report. -/
theorem constantIndex_overflow_spec :
    (addConstant (run initChunk manyConstsTrace) 0).2 = 256 ∧
    (∀ b : Fin 256, ((b : Nat) : Int) ≠ (addConstant (run initChunk manyConstsTrace) 0).2) ∧
    intToUInt8 (addConstant (run initChunk manyConstsTrace) 0).2 = (0 : Fin 256) ∧
    (writeChunk (addConstant (run initChunk manyConstsTrace) 0).1
        (intToUInt8 (addConstant (run initChunk manyConstsTrace) 0).2) 7).count =
      (addConstant (run initChunk manyConstsTrace) 0).1.count + 1 := by
  have hlen : ((constsOf manyConstsTrace).length : Int) = 256 := by decide
  rcases run_fields manyConstsTrace initChunk with ⟨-, -, -, -, h5⟩
  rw [show initChunk.constants.count = 0 from rfl, zero_add, hlen] at h5
  have hret : (addConstant (run initChunk manyConstsTrace) 0).2 = 256 := by
    simp [addConstant, writeValueArray, h5]
  refine ⟨hret, ?_, ?_, rfl⟩
  · intro b
    rw [hret]
    have hb : (b : Nat) < 256 := b.isLt
    omega
  · rw [hret]
    decide

end Clox
